import Mathlib

/-!
Shallow embedding of the SlopSandbox core (SlopSandboxCpp/src/main.cpp).

Floating-point arithmetic of the source is embedded as exact arithmetic:
over ℚ where the source uses only field operations and comparisons, and
over ℝ where the source calls sqrtf.  Engine handles (b2BodyId, b2JointId)
are embedded as stable keys (ℕ) together with validity flags; the external
physics engine (box2d) is modelled only through the data the core reads
back from it (validity of handles, masses, contact and hit-event data,
convex-hull results).
-/

/-- Scene mode, from the source enumeration SceneLocation (Water, Land). -/
inductive SceneLocation where
  | Water
  | Land
  deriving DecidableEq

/-- kPixelsPerMeter = 50 from the source constants. -/
def kPixelsPerMeter : ℚ := 50

/-- kInvPixelsPerMeter = 1 / kPixelsPerMeter. -/
def kInvPixelsPerMeter : ℚ := 1 / 50

/-- Real-valued copy of kInvPixelsPerMeter, used by the sqrt-based formulas. -/
noncomputable def kInvPixelsPerMeterR : ℝ := 1 / 50

/-- kBaseSizePx = 56, the reference shape edge length in pixels. -/
def kBaseSizePx : ℚ := 56

/-- kFixedDt = 1/55, the fixed simulation step in seconds. -/
def kFixedDt : ℚ := 1 / 55

/-- std::round: round half away from zero, as used by WaveIndexForX. -/
def roundHalfAway (x : ℚ) : ℤ :=
  if 0 ≤ x then ⌊x + 1 / 2⌋ else -⌊-x + 1 / 2⌋

/-- Wave field state: displacement and velocity sample arrays plus the
sample spacing m_waveStep (the coupling scratch arrays are not needed by
the operations modelled here). -/
structure WaveState where
  waveDisp : List ℚ
  waveVel : List ℚ
  waveStep : ℚ
  deriving DecidableEq

/-- WaveIndexForX: nearest sample index for a pixel x, clamped into range. -/
def WaveIndexForX (w : WaveState) (xPx : ℚ) : ℤ :=
  if w.waveDisp.isEmpty then 0
  else max 0 (min (roundHalfAway (xPx / w.waveStep)) ((w.waveDisp.length : ℤ) - 1))

/-- The loop offsets k = -3 .. 3 of DisturbWave. -/
def disturbOffsets : List ℤ := [-3, -2, -1, 0, 1, 2, 3]

/-- DisturbWave (main.cpp 456-467): adds a falloff-weighted impulse to the
velocity samples in a window around x, but only in the Water scene and only
when the field is non-empty. -/
def DisturbWave (scene : SceneLocation) (w : WaveState) (xPx impulse : ℚ) : WaveState :=
  if scene ≠ SceneLocation.Water ∨ w.waveDisp.isEmpty = true then w
  else
    let center := WaveIndexForX w xPx
    let newVel := disturbOffsets.foldl (fun vel k =>
      let i := center + k
      if 0 ≤ i ∧ i < (vel.length : ℤ) then
        let f : ℚ := 1 - (k.natAbs : ℚ) / 4
        vel.set i.toNat (vel.getD i.toNat 0 + impulse * max 0 f)
      else vel) w.waveVel
    { w with waveVel := newVel }

/-- Submersion depth from UpdateWave: clamp((maxY - waterY) / span, 0, 1.25). -/
def submersionDepth (maxY waterY span : ℚ) : ℚ :=
  min (max ((maxY - waterY) / span) 0) 1.25

/-- Upward buoyancy magnitude from UpdateWave: mass * 24 * (0.72 + 0.78 * depth). -/
def buoyancyMagnitude (mass depth : ℚ) : ℚ :=
  mass * 24 * (0.72 + 0.78 * depth)

/-- The y-component of the buoyancy force UpdateWave applies in one fixed
step.  Screen y points down (world gravity is +18), so upward force is
negative.  When depth ≤ 0 the loop continues without applying any force. -/
def buoyancyForceY (mass depth : ℚ) : ℚ :=
  if depth ≤ 0 then 0 else -(buoyancyMagnitude mass depth)

/-- Joint record (struct JointEntry): engine-handle validity, the two
endpoint body keys, and the weld/wheel discriminator. -/
structure JointEntry where
  jointValid : Bool
  bodyA : ℕ
  bodyB : ℕ
  isWheelJoint : Bool
  deriving DecidableEq

/-- Body record (struct BodyEntry), reduced to the fields the registry
claims depend on: the stable key of the engine body and the validity of
the engine handle. -/
structure BodyEntry where
  key : ℕ
  valid : Bool
  deriving DecidableEq

/-- Registry state owned by the sandbox: body records, joint records, the
spawn-history list, the per-body previous submersion depth cache, the set
of live engine bodies (by key), and a fresh-key counter standing for the
engine body allocator. -/
structure SandboxState where
  bodies : List BodyEntry
  joints : List JointEntry
  spawnOrder : List ℕ
  prevWaterDepth : List (ℕ × ℚ)
  engineBodies : List ℕ
  nextKey : ℕ
  deriving DecidableEq

/-- DeleteBodyIndex (main.cpp 936-968): erases the record (and nothing
else) when the engine handle is already invalid; otherwise destroys every
joint whose record references the body key (and reaps invalid joint
records met on the way), destroys the body, erases the record, and prunes
the key from the spawn history and the depth cache. -/
def DeleteBodyIndex (st : SandboxState) (idx : ℕ) : SandboxState :=
  match st.bodies.get? idx with
  | none => st
  | some e =>
    if e.valid = false then { st with bodies := st.bodies.eraseIdx idx }
    else
      let key := e.key
      { st with
        bodies := st.bodies.eraseIdx idx
        joints := st.joints.filter (fun j =>
          j.jointValid && !(j.bodyA == key) && !(j.bodyB == key))
        spawnOrder := st.spawnOrder.filter (fun k => !(k == key))
        prevWaterDepth := st.prevWaterDepth.filter (fun p => !(p.1 == key))
        engineBodies := st.engineBodies.filter (fun k => !(k == key)) }

/-- PushSpawnOrder (main.cpp 558-565): append the new key; once the list
exceeds 4096 entries, evict the oldest 2048 in bulk. -/
def PushSpawnOrder (so : List ℕ) (key : ℕ) : List ℕ :=
  let so1 := so ++ [key]
  if 4096 < so1.length then so1.drop 2048 else so1

/-- Signed shoelace sum of a pixel-space vertex list (the areaPx2 lambda in
SpawnPolygonBody pairs each vertex with its cyclic successor). -/
def shoelaceSum (verts : List (ℚ × ℚ)) : ℚ :=
  ((verts.zip (verts.rotate 1)).map (fun p => p.1.1 * p.2.2 - p.2.1 * p.1.2)).sum

/-- The areaPx2 lambda of SpawnPolygonBody: half the absolute shoelace sum,
floored at 1; degenerate vertex lists count as area 1. -/
def polyAreaPx2 (verts : List (ℚ × ℚ)) : ℚ :=
  if verts.length < 3 then 1 else max 1 (|shoelaceSum verts| * 0.5)

/-- Density scale for drawn shapes (SpawnPolygonBody 700-702 and
SpawnCircleFromDrag 775-777): clamp(sqrt(baseArea / area), 0.25, 1.0) with
baseArea = kBaseSizePx * kBaseSizePx = 3136 square pixels. -/
noncomputable def densityScale (areaPx2 : ℝ) : ℝ :=
  min 1 (max 0.25 (Real.sqrt (56 * 56 / areaPx2)))

/-- SpawnPolygonBody (main.cpp 657-721) at registry level.  The convex
hull is computed by the external engine (b2ComputeHull), so its result is
a parameter.  The function rejects inputs with fewer than 3 vertices
before touching the engine; otherwise it creates an engine body, and if
the hull degenerates below 3 vertices it destroys that body again and
returns with no record, spawn-history or joint change.  On success it
appends a body record and pushes the key onto the spawn history (shape
density is densityScale of the areaPx2 of the input vertices). -/
def SpawnPolygonBody (st : SandboxState) (hull : List (ℚ × ℚ))
    (localVertices : List (ℚ × ℚ)) : SandboxState :=
  if localVertices.length < 3 then st
  else
    let key := st.nextKey
    let stCreated := { st with
      engineBodies := st.engineBodies ++ [key]
      nextKey := st.nextKey + 1 }
    if hull.length < 3 then
      { stCreated with
        engineBodies := stCreated.engineBodies.filter (fun k => !(k == key)) }
    else
      { stCreated with
        bodies := stCreated.bodies ++ [{ key := key, valid := true }]
        spawnOrder := PushSpawnOrder stCreated.spawnOrder key }

/-- GlassBreakThreshold (main.cpp 1294-1300): 28 + 22 * max(0.08,
sqrt(area in square meters)) + 8 * mass. -/
noncomputable def GlassBreakThreshold (areaPx2 mass : ℝ) : ℝ :=
  28 + max 0.08 (Real.sqrt (areaPx2 * kInvPixelsPerMeterR * kInvPixelsPerMeterR)) * 22
    + mass * 8

/-- Per-tick data UpdateGlass reads from the engine for one fragile body:
per-contact-point accumulated normal impulses, masses of valid bodies
resting above the pane, and the (approach speed, reported body mass)
pairs of the discrete hit events touching the body this tick. -/
structure GlassInput where
  pointImpulses : List ℚ
  loadMasses : List ℚ
  hits : List (ℚ × ℚ)
  deriving DecidableEq

/-- Fracture state of one fragile body together with the engine-derived
quantities its threshold depends on (mass and pixel footprint area). -/
structure GlassBody where
  isGlass : Bool
  glassStress : ℚ
  glassGraceFrames : ℤ
  mass : ℚ
  areaPx2 : ℚ
  deriving DecidableEq

/-- ToggleFeature with the Glass tool (main.cpp 1223-1227): flip the flag,
reset stress to zero, and set the grace counter to 60 when turning glass
on and to 0 when turning it off. -/
def ToggleFeatureGlass (b : GlassBody) : GlassBody :=
  let g := !b.isGlass
  { b with
    isGlass := g
    glassStress := 0
    glassGraceFrames := if g then 60 else 0 }

/-- The decay pass of UpdateGlass (main.cpp 1319-1324): stress decays
linearly toward zero by dt * 10 and a positive grace counter is
decremented. -/
def glassDecay (b : GlassBody) : GlassBody :=
  { b with
    glassStress := max 0 (b.glassStress - kFixedDt * 10)
    glassGraceFrames :=
      if 0 < b.glassGraceFrames then b.glassGraceFrames - 1 else b.glassGraceFrames }

/-- The contact-stress pass of UpdateGlass (main.cpp 1334-1366) for one
body: total clamped normal impulse above the 0.85 dead zone scaled by
0.75 * dt * 60, plus a load term when bodies rest above the pane with
total mass exceeding 2.2 times the pane mass. -/
def contactStress (inp : GlassInput) (stress mass : ℚ) : ℚ :=
  let impulse := (inp.pointImpulses.map (fun p => max 0 p)).sum
  let load := (inp.loadMasses.map (fun m => max 0 m)).sum
  let impulseStress := max 0 (impulse - 0.85) * 0.75
  let s2 := stress + impulseStress * kFixedDt * 60
  if 0 < load then s2 + max 0 (load - mass * 2.2) * kFixedDt * 4 else s2

/-- Running stress values through the hit-event pass of UpdateGlass
(main.cpp 1375-1393): head is the stress before any hit, and each hit adds
approachSpeed * reportedMass * 0.9. -/
def hitStresses (hits : List (ℚ × ℚ)) (s : ℚ) : List ℚ :=
  hits.scanl (fun acc h => acc + h.1 * h.2 * 0.9) s

/-- One UpdateGlass tick acting on a single fragile body: decay and grace
countdown always run; once the (already decremented) grace counter is no
longer positive, contact stress and hit stress accumulate. -/
def glassStep (inp : GlassInput) (b : GlassBody) : GlassBody :=
  if b.isGlass then
    let b1 := glassDecay b
    if 0 < b1.glassGraceFrames then b1
    else { b1 with
      glassStress := (hitStresses inp.hits (contactStress inp b1.glassStress b1.mass)).getLastD 0 }
  else b

/-- Iterated UpdateGlass ticks over a list of per-tick inputs. -/
def glassIter (inputs : List GlassInput) (b : GlassBody) : GlassBody :=
  inputs.foldl (fun acc i => glassStep i acc) b

/-- The break decision of one UpdateGlass tick: the body enters toBreak
iff it is glass, its post-decrement grace counter is not positive, and the
stress exceeds GlassBreakThreshold either right after the contact pass or
after some hit event of the tick.  hitStresses lists exactly the values
the source compares against the threshold. -/
def TickBreaks (inp : GlassInput) (b : GlassBody) : Prop :=
  b.isGlass = true ∧ (glassDecay b).glassGraceFrames ≤ 0 ∧
  ∃ s ∈ hitStresses inp.hits (contactStress inp (glassDecay b).glassStress b.mass),
    GlassBreakThreshold (b.areaPx2 : ℝ) (b.mass : ℝ) < (s : ℝ)

/-- maxRelease = 30 in EndBodyDrag, the throw speed cap in meters/second. -/
def kMaxRelease : ℝ := 30

/-- b2Length of the stored release velocity. -/
noncomputable def dragSpeed (v : ℝ × ℝ) : ℝ :=
  Real.sqrt (v.1 * v.1 + v.2 * v.2)

/-- The velocity EndBodyDrag (main.cpp 1668-1697) applies to every dragged
body: the stored release velocity, rescaled by maxRelease / speed when its
magnitude exceeds the cap. -/
noncomputable def releaseVelocity (v : ℝ × ℝ) : ℝ × ℝ :=
  if kMaxRelease < dragSpeed v ∧ 0 < dragSpeed v then
    (kMaxRelease / dragSpeed v * v.1, kMaxRelease / dragSpeed v * v.2)
  else v

/-- The angular velocity EndBodyDrag additionally sets on circular bodies:
(release.x / radiusM) * 0.8 with radiusM = max(0.01, radiusPx / 50). -/
noncomputable def circleReleaseSpin (radiusPx : ℝ) (release : ℝ × ℝ) : ℝ :=
  release.1 / max 0.01 (radiusPx * (1 / 50)) * 0.8

/-- Is a joint record attached to the given body key (either endpoint). -/
def jointAttached (wheelKey : ℕ) (j : JointEntry) : Bool :=
  j.bodyA == wheelKey || j.bodyB == wheelKey

/-- The opposite endpoint of a joint record relative to the toggled body:
bodyB when bodyA equals the body key, bodyA otherwise. -/
def hostOf (wheelKey : ℕ) (j : JointEntry) : ℕ :=
  if j.bodyA == wheelKey then j.bodyB else j.bodyA

/-- Processing of one joint record in the host collection pass of
ToggleWheelMode (main.cpp 1129-1144): a valid attached joint with valid,
distinct endpoints contributes its opposite endpoint as a host, unless
that host is invalid, equals the toggled body, or was already seen. -/
def collectHostsStep (bodyValid : ℕ → Bool) (wheelKey : ℕ) (hosts : List ℕ)
    (j : JointEntry) : List ℕ :=
  if j.jointValid && jointAttached wheelKey j then
    if bodyValid j.bodyA && bodyValid j.bodyB && !(j.bodyA == j.bodyB) then
      if bodyValid (hostOf wheelKey j) && !(hostOf wheelKey j == wheelKey) then
        if hosts.contains (hostOf wheelKey j) then hosts
        else hosts ++ [hostOf wheelKey j]
      else hosts
    else hosts
  else hosts

/-- Host collection pass of ToggleWheelMode (main.cpp 1125-1144): walk the
joint list in order, deduplicating while preserving first-seen order. -/
def collectHosts (bodyValid : ℕ → Bool) (wheelKey : ℕ) (joints : List JointEntry) : List ℕ :=
  joints.foldl (collectHostsStep bodyValid wheelKey) []

/-- The hasAnyJoint flag of ToggleWheelMode (main.cpp 1109-1118). -/
def hasAnyAttached (wheelKey : ℕ) (joints : List JointEntry) : Bool :=
  joints.any (fun j => jointAttached wheelKey j && j.jointValid)

/-- The hasWheelJoint flag of ToggleWheelMode (main.cpp 1109-1118). -/
def hasWheelAttached (wheelKey : ℕ) (joints : List JointEntry) : Bool :=
  joints.any (fun j => jointAttached wheelKey j && j.jointValid && j.isWheelJoint)

/-- ToggleWheelMode (main.cpp 1102-1182) at joint-record level.  bodyValid
is the engine validity of body keys (unchanged by the operation, which
creates and destroys only joints).  If the body is invalid or has no valid
attached joint the joint list is unchanged.  Otherwise all attached joints
(and invalid records met on the way) are destroyed and one joint per
distinct host is recreated: as welds when any destroyed attached joint was
a wheel joint, as wheel joints otherwise.  CreateWeldJoint and
CreateWheelJoint both refuse invalid or identical endpoints; at record
level they differ only in the isWheelJoint discriminator (anchor frames
live in the engine). -/
def ToggleWheelMode (bodyValid : ℕ → Bool) (wheelKey : ℕ) (joints : List JointEntry) :
    List JointEntry :=
  if !bodyValid wheelKey then joints
  else if !hasAnyAttached wheelKey joints then joints
  else
    joints.filter (fun j => j.jointValid && !jointAttached wheelKey j) ++
    (collectHosts bodyValid wheelKey joints).filterMap (fun h =>
      if bodyValid h && bodyValid wheelKey && !(h == wheelKey) then
        some (JointEntry.mk true h wheelKey (!hasWheelAttached wheelKey joints))
      else none)

/-- One membership-guarded push of the BodiesLinkedTo traversal: when the
condition holds and the key is not yet visited, insert it into the visited
set and push it on the stack. -/
def pushIfNew (cond : Bool) (x : ℕ) (vs : List ℕ × List ℕ) : List ℕ × List ℕ :=
  if cond && !vs.1.contains x then (x :: vs.1, x :: vs.2) else vs

/-- Processing of one joint record in the inner loop of BodiesLinkedTo
(main.cpp 1008-1021): for a valid joint, each endpoint equal to the
current key causes the opposite endpoint to be visited and pushed if new. -/
def expandJoint (cur : ℕ) (vs : List ℕ × List ℕ) (j : JointEntry) : List ℕ × List ℕ :=
  pushIfNew (j.jointValid && j.bodyB == cur) j.bodyA
    (pushIfNew (j.jointValid && j.bodyA == cur) j.bodyB vs)

/-- The worklist loop of BodiesLinkedTo: pop a key, expand every joint
against it, repeat.  fuel is a termination device; dfsFuel below always
suffices because every pushed key was freshly inserted into the visited
set, whose size is bounded by the key universe. -/
def dfsLoop (joints : List JointEntry) : ℕ → List ℕ → List ℕ → List ℕ
  | 0, _, visited => visited
  | _ + 1, [], visited => visited
  | fuel + 1, cur :: stack, visited =>
    let r := joints.foldl (expandJoint cur) (visited, stack)
    dfsLoop joints fuel r.2 r.1

/-- Fuel sufficient for dfsLoop to drain its stack (see dfsLoop_spec). -/
def dfsFuel (joints : List JointEntry) : ℕ := 4 * joints.length + 3

/-- The visited set BodiesLinkedTo computes from a source key. -/
def reachedKeys (joints : List JointEntry) (source : ℕ) : List ℕ :=
  dfsLoop joints (dfsFuel joints) [source] [source]

/-- BodiesLinkedTo (main.cpp 993-1033): traverse the valid-joint graph
from the key of the indexed body and return the indices of all valid bodies
whose key was visited. -/
def BodiesLinkedTo (bodies : List BodyEntry) (joints : List JointEntry)
    (bodyIndex : ℕ) : List ℕ :=
  match bodies.get? bodyIndex with
  | none => []
  | some src =>
    let visited := reachedKeys joints src.key
    (List.range bodies.length).filter (fun i =>
      match bodies.get? i with
      | some e => e.valid && visited.contains e.key
      | none => false)

/-- Does one joint record link keys x and y (in either direction)?  This
is exactly the edge relation the BodiesLinkedTo loop follows. -/
def jointLinks (j : JointEntry) (x y : ℕ) : Bool :=
  j.jointValid && ((j.bodyA == x && j.bodyB == y) || (j.bodyB == x && j.bodyA == y))

/-- Some joint of the list links keys x and y. -/
def linksKeys (joints : List JointEntry) (x y : ℕ) : Bool :=
  joints.any (fun j => jointLinks j x y)

/-- Reachability in the valid-joint graph, the specification of the
BodiesLinkedTo traversal. -/
inductive Reach (joints : List JointEntry) (s : ℕ) : ℕ → Prop
  | refl : Reach joints s s
  | step {a b : ℕ} : Reach joints s a → linksKeys joints a b = true → Reach joints s b

/-- All body keys that can ever appear in the visited set of a traversal
started at s. -/
def keyUniverse (joints : List JointEntry) (s : ℕ) : List ℕ :=
  s :: (joints.map (fun j => j.bodyA) ++ joints.map (fun j => j.bodyB))

/-- C10: DisturbWave leaves every displacement and velocity sample
unchanged whenever the scene mode is not Water or the wave field is
empty, so buoyancy wakes, mouse clicks and keyboard kicks are silently
dropped in Land mode. -/
theorem disturbWave_noop_outside_water (scene : SceneLocation) (w : WaveState)
    (xPx impulse : ℚ) (h : scene ≠ SceneLocation.Water ∨ w.waveDisp = []) :
    DisturbWave scene w xPx impulse = w := by
  have hc : scene ≠ SceneLocation.Water ∨ w.waveDisp.isEmpty = true := by
    rcases h with h | h
    · exact Or.inl h
    · exact Or.inr (by simp [h])
  unfold DisturbWave
  rw [if_pos hc]

/-- Witness for disturbWave_noop_outside_water at a concrete Land-mode
field with nonzero samples. -/
theorem disturbWave_noop_outside_water_witness :
    (SceneLocation.Land ≠ SceneLocation.Water ∨
      (WaveState.mk [1, 2] [0, 0] 8).waveDisp = []) ∧
    DisturbWave SceneLocation.Land ⟨[1, 2], [0, 0], 8⟩ 5 3 = ⟨[1, 2], [0, 0], 8⟩ :=
  ⟨Or.inl (by decide),
   disturbWave_noop_outside_water SceneLocation.Land ⟨[1, 2], [0, 0], 8⟩ 5 3
     (Or.inl (by decide))⟩

/-- C6: per fixed step the buoyancy force is zero at zero submersion
depth, strictly positive and directed upward (negative y, since screen y
points down) whenever depth is positive and the mass is positive, and its
upward magnitude is monotone non-decreasing in depth for fixed mass. -/
theorem buoyancy_zero_pos_monotone (m d1 d2 : ℚ) (hm : 0 < m) (hd : 0 ≤ d1)
    (h12 : d1 ≤ d2) :
    buoyancyForceY m 0 = 0 ∧
    (0 < d1 → buoyancyForceY m d1 < 0) ∧
    -buoyancyForceY m d1 ≤ -buoyancyForceY m d2 := by
  refine ⟨by simp [buoyancyForceY], ?_, ?_⟩
  · intro h1
    rw [buoyancyForceY, if_neg (not_le.mpr h1)]
    unfold buoyancyMagnitude
    nlinarith
  · rcases le_or_lt d1 0 with h1 | h1
    · rcases le_or_lt d2 0 with h2 | h2
      · rw [buoyancyForceY, if_pos h1, buoyancyForceY, if_pos h2]
      · rw [buoyancyForceY, if_pos h1, buoyancyForceY, if_neg (not_le.mpr h2)]
        unfold buoyancyMagnitude
        nlinarith
    · have h2 : 0 < d2 := lt_of_lt_of_le h1 h12
      rw [buoyancyForceY, if_neg (not_le.mpr h1), buoyancyForceY, if_neg (not_le.mpr h2)]
      unfold buoyancyMagnitude
      nlinarith

/-- Witness for buoyancy_zero_pos_monotone at mass 1 and depths 0 and 1. -/
theorem buoyancy_zero_pos_monotone_witness :
    (0 : ℚ) < 1 ∧ (0 : ℚ) ≤ 0 ∧ ((0 : ℚ) ≤ 1) ∧
    (buoyancyForceY 1 0 = 0 ∧
      ((0 : ℚ) < 0 → buoyancyForceY 1 0 < 0) ∧
      -buoyancyForceY 1 0 ≤ -buoyancyForceY 1 1) :=
  ⟨by norm_num, by norm_num, by norm_num,
   buoyancy_zero_pos_monotone 1 0 1 (by norm_num) (by norm_num) (by norm_num)⟩

/-- C1: after DeleteBodyIndex on a body whose engine handle is still
valid, no joint record whose bodyA or bodyB equals the stable key of the
deleted body remains in the joint list. -/
theorem deleteBody_no_attached_joints (st : SandboxState) (idx : ℕ) (e : BodyEntry)
    (he : st.bodies.get? idx = some e) (hv : e.valid = true) :
    (DeleteBodyIndex st idx).joints.filter
      (fun j => j.bodyA == e.key || j.bodyB == e.key) = [] := by
  unfold DeleteBodyIndex
  rw [he]
  simp only [hv]
  rw [if_neg (by simp)]
  rw [List.filter_eq_nil_iff]
  intro j hj
  have hp := (List.mem_filter.mp hj).2
  simp only [Bool.and_eq_true, Bool.not_eq_true', beq_eq_false_iff_ne, ne_eq] at hp
  simp only [Bool.or_eq_true, beq_iff_eq]
  push_neg
  exact ⟨hp.1.2, hp.2⟩

/-- Concrete registry used by the deleteBody_no_attached_joints witness. -/
def demoDeleteState : SandboxState :=
  { bodies := [⟨5, true⟩]
    joints := [⟨true, 5, 7, false⟩, ⟨true, 7, 5, true⟩, ⟨true, 7, 9, false⟩]
    spawnOrder := [5]
    prevWaterDepth := [(5, 1)]
    engineBodies := [5, 7, 9]
    nextKey := 10 }

/-- Witness for deleteBody_no_attached_joints on a concrete registry with
two joints touching the deleted body and one unrelated joint. -/
theorem deleteBody_no_attached_joints_witness :
    demoDeleteState.bodies.get? 0 = some ⟨5, true⟩ ∧
    (DeleteBodyIndex demoDeleteState 0).joints.filter
      (fun j => j.bodyA == (5 : ℕ) || j.bodyB == (5 : ℕ)) = [] :=
  ⟨by decide,
   deleteBody_no_attached_joints demoDeleteState 0 ⟨5, true⟩ (by decide) (by decide)⟩

/-- C8: a polygon/freeform spawn whose computed convex hull has fewer
than 3 vertices is rejected as a no-op: the half-created engine body is
destroyed again, and no body record, spawn-history entry or joint record
is created; the operation simply returns the unchanged scene (there is no
error channel). -/
theorem spawnPolygon_degenerate_noop (st : SandboxState) (hull lv : List (ℚ × ℚ))
    (hlv : 3 ≤ lv.length) (hhull : hull.length < 3)
    (hfresh : st.nextKey ∉ st.engineBodies) :
    (SpawnPolygonBody st hull lv).bodies = st.bodies ∧
    (SpawnPolygonBody st hull lv).joints = st.joints ∧
    (SpawnPolygonBody st hull lv).spawnOrder = st.spawnOrder ∧
    (SpawnPolygonBody st hull lv).engineBodies = st.engineBodies := by
  unfold SpawnPolygonBody
  rw [if_neg (not_lt.mpr hlv), if_pos hhull]
  refine ⟨rfl, rfl, rfl, ?_⟩
  show (st.engineBodies ++ [st.nextKey]).filter (fun k => !(k == st.nextKey)) =
    st.engineBodies
  rw [List.filter_append]
  have h1 : [st.nextKey].filter (fun k => !(k == st.nextKey)) = [] := by simp
  have h2 : st.engineBodies.filter (fun k => !(k == st.nextKey)) = st.engineBodies := by
    rw [List.filter_eq_self]
    intro a ha
    simp only [Bool.not_eq_true', beq_eq_false_iff_ne, ne_eq]
    intro hak
    exact hfresh (hak ▸ ha)
  rw [h1, h2, List.append_nil]

/-- Concrete scene used by the spawnPolygon_degenerate_noop witness. -/
def demoSpawnState : SandboxState :=
  { bodies := [⟨0, true⟩]
    joints := [⟨true, 0, 1, false⟩]
    spawnOrder := [0]
    prevWaterDepth := []
    engineBodies := [0, 1]
    nextKey := 2 }

/-- Witness for spawnPolygon_degenerate_noop: three collinear stroke
points whose hull collapses to 2 vertices leave the scene unchanged. -/
theorem spawnPolygon_degenerate_noop_witness :
    3 ≤ ([((0 : ℚ), (0 : ℚ)), (1, 0), (2, 0)] : List (ℚ × ℚ)).length ∧
    ([((0 : ℚ), (0 : ℚ)), (2, 0)] : List (ℚ × ℚ)).length < 3 ∧
    (SpawnPolygonBody demoSpawnState [(0, 0), (2, 0)] [(0, 0), (1, 0), (2, 0)]).bodies =
      demoSpawnState.bodies ∧
    (SpawnPolygonBody demoSpawnState [(0, 0), (2, 0)] [(0, 0), (1, 0), (2, 0)]).spawnOrder =
      demoSpawnState.spawnOrder :=
  ⟨by decide, by decide,
   (spawnPolygon_degenerate_noop demoSpawnState [(0, 0), (2, 0)] [(0, 0), (1, 0), (2, 0)]
     (by decide) (by decide) (by decide)).1,
   (spawnPolygon_degenerate_noop demoSpawnState [(0, 0), (2, 0)] [(0, 0), (1, 0), (2, 0)]
     (by decide) (by decide) (by decide)).2.2.1⟩

/-- The areaPx2 of any supplied vertex loop is at least 1 square pixel. -/
lemma one_le_polyAreaPx2 (vs : List (ℚ × ℚ)) : 1 ≤ polyAreaPx2 vs := by
  unfold polyAreaPx2
  split
  · norm_num
  · exact le_max_left 1 _

/-- Clamp and monotonicity properties of the density scale as a function
of its area argument: clamped to [0.25, 1], equal to 1 at the reference
area 56 * 56 = 3136 px², strictly below 1 above the reference, antitone,
and strictly decreasing while strictly between the floor and 1. -/
lemma densityScale_props (A B : ℝ) (hA : 0 < A) (hAB : A < B) :
    densityScale (56 * 56) = 1 ∧
    0.25 ≤ densityScale A ∧ densityScale A ≤ 1 ∧
    (56 * 56 < A → densityScale A < 1) ∧
    densityScale B ≤ densityScale A ∧
    (0.25 < densityScale A → densityScale A < 1 → densityScale B < densityScale A) := by
  have hB : (0 : ℝ) < B := lt_trans hA hAB
  refine ⟨?_, ?_, ?_, ?_, ?_, ?_⟩
  · unfold densityScale
    rw [div_self (by norm_num : (56 * 56 : ℝ) ≠ 0), Real.sqrt_one]
    norm_num
  · exact le_min (by norm_num) (le_max_left _ _)
  · exact min_le_left _ _
  · intro h
    have h0 : (0 : ℝ) ≤ 56 * 56 / A := by positivity
    have hs : Real.sqrt (56 * 56 / A) < 1 := by
      calc Real.sqrt (56 * 56 / A) < Real.sqrt 1 :=
            Real.sqrt_lt_sqrt h0 ((div_lt_one hA).mpr h)
        _ = 1 := Real.sqrt_one
    unfold densityScale
    have hm : max 0.25 (Real.sqrt (56 * 56 / A)) < 1 := max_lt (by norm_num) hs
    rw [min_eq_right hm.le]
    exact hm
  · unfold densityScale
    have h1 : (56 * 56 : ℝ) / B ≤ 56 * 56 / A := by
      gcongr
    exact min_le_min le_rfl (max_le_max le_rfl (Real.sqrt_le_sqrt h1))
  · intro hgt hlt1
    have hsA1 : Real.sqrt (56 * 56 / A) < 1 := by
      rcases min_lt_iff.mp hlt1 with h | h
      · exact absurd h (lt_irrefl 1)
      · exact (max_lt_iff.mp h).2
    have hsA25 : (0.25 : ℝ) < Real.sqrt (56 * 56 / A) := by
      rcases lt_max_iff.mp (lt_min_iff.mp hgt).2 with h | h
      · exact absurd h (lt_irrefl _)
      · exact h
    have hBA : Real.sqrt (56 * 56 / B) < Real.sqrt (56 * 56 / A) := by
      apply Real.sqrt_lt_sqrt (by positivity)
      gcongr
    have hdsA : densityScale A = Real.sqrt (56 * 56 / A) := by
      unfold densityScale
      rw [max_eq_right hsA25.le, min_eq_right hsA1.le]
    rw [hdsA]
    calc densityScale B ≤ max 0.25 (Real.sqrt (56 * 56 / B)) := min_le_right _ _
      _ < Real.sqrt (56 * 56 / A) := max_lt hsA25 hBA

/-- A freeform stroke tracing a plain 100 x 100 square. -/
def squareStroke : List (ℚ × ℚ) := [(0, 0), (100, 0), (100, 100), (0, 100)]

/-- The same four points in a self-intersecting (bowtie) order: the same
point set, hence the same convex hull, but the winding-weighted shoelace
sum cancels to zero. -/
def bowtieStroke : List (ℚ × ℚ) := [(0, 0), (100, 0), (0, 100), (100, 100)]

/-- C9 counterexample: the density scale is computed from the shoelace
area of the supplied vertex loop (the areaPx2 lambda applied to
localVertices), not from the area of the convex hull the shape is built
from.  The square stroke and the bowtie stroke are permutations of the
same four points, so they have the same convex hull, yet the square loop
has areaPx2 10000 and density scale 0.56 while the bowtie loop has
areaPx2 1 and density scale 1: density is not a function of the hull
area, refuting the claim as stated. -/
theorem densityScale_not_hull_function :
    squareStroke.Perm bowtieStroke ∧
    polyAreaPx2 squareStroke = 10000 ∧
    polyAreaPx2 bowtieStroke = 1 ∧
    densityScale (polyAreaPx2 squareStroke : ℝ) = 0.56 ∧
    densityScale (polyAreaPx2 bowtieStroke : ℝ) = 1 ∧
    densityScale (polyAreaPx2 squareStroke : ℝ) ≠
      densityScale (polyAreaPx2 bowtieStroke : ℝ) := by
  have hsq : polyAreaPx2 squareStroke = 10000 := by
    norm_num [polyAreaPx2, shoelaceSum, squareStroke, List.rotate]
  have hbt : polyAreaPx2 bowtieStroke = 1 := by
    norm_num [polyAreaPx2, shoelaceSum, bowtieStroke, List.rotate]
  have hds1 : densityScale (polyAreaPx2 squareStroke : ℝ) = 0.56 := by
    rw [hsq, show (((10000 : ℚ)) : ℝ) = 10000 by norm_num]
    unfold densityScale
    rw [show (56 * 56 : ℝ) / 10000 = (56 / 100) ^ 2 by norm_num,
      Real.sqrt_sq (by norm_num : (0 : ℝ) ≤ 56 / 100),
      max_eq_right (by norm_num : (0.25 : ℝ) ≤ 56 / 100),
      min_eq_right (by norm_num : (56 / 100 : ℝ) ≤ 1)]
    norm_num
  have hds2 : densityScale (polyAreaPx2 bowtieStroke : ℝ) = 1 := by
    rw [hbt, show (((1 : ℚ)) : ℝ) = 1 by norm_num]
    unfold densityScale
    rw [show (56 * 56 : ℝ) / 1 = 56 ^ 2 by norm_num,
      Real.sqrt_sq (by norm_num : (0 : ℝ) ≤ 56),
      max_eq_right (by norm_num : (0.25 : ℝ) ≤ 56),
      min_eq_left (by norm_num : (1 : ℝ) ≤ 56)]
  refine ⟨by decide, hsq, hbt, hds1, hds2, ?_⟩
  rw [hds1, hds2]
  norm_num

/-- C9 amended: for every accepted polygon/freeform spawn the shape
density scale is densityScale applied to polyAreaPx2 of the supplied
vertex loop - the shoelace area of the stroke, which coincides with the
hull area only for simple convex loops.  As a function of that loop area
it is clamped to [0.25, 1], equals 1 at the reference area 56 * 56,
falls strictly below 1 above it, and decreases (strictly while between
the floor and 1) as the loop area grows; the loop area is always ≥ 1. -/
theorem densityScale_loop_area (vs1 vs2 : List (ℚ × ℚ))
    (hlt : polyAreaPx2 vs1 < polyAreaPx2 vs2) :
    1 ≤ polyAreaPx2 vs1 ∧
    densityScale (56 * 56) = 1 ∧
    0.25 ≤ densityScale (polyAreaPx2 vs1 : ℝ) ∧
    densityScale (polyAreaPx2 vs1 : ℝ) ≤ 1 ∧
    (56 * 56 < (polyAreaPx2 vs1 : ℝ) → densityScale (polyAreaPx2 vs1 : ℝ) < 1) ∧
    densityScale (polyAreaPx2 vs2 : ℝ) ≤ densityScale (polyAreaPx2 vs1 : ℝ) ∧
    (0.25 < densityScale (polyAreaPx2 vs1 : ℝ) →
      densityScale (polyAreaPx2 vs1 : ℝ) < 1 →
      densityScale (polyAreaPx2 vs2 : ℝ) < densityScale (polyAreaPx2 vs1 : ℝ)) := by
  have h1 : 1 ≤ polyAreaPx2 vs1 := one_le_polyAreaPx2 vs1
  have hA : (0 : ℝ) < (polyAreaPx2 vs1 : ℝ) := by
    have hc : (1 : ℝ) ≤ (polyAreaPx2 vs1 : ℝ) := by exact_mod_cast h1
    linarith
  have hABR : (polyAreaPx2 vs1 : ℝ) < (polyAreaPx2 vs2 : ℝ) := by exact_mod_cast hlt
  obtain ⟨p1, p2, p3, p4, p5, p6⟩ := densityScale_props _ _ hA hABR
  exact ⟨h1, p1, p2, p3, p4, p5, p6⟩

/-- A larger plain square stroke (loop area 40000 px²) for the C9 witness. -/
def bigSquareStroke : List (ℚ × ℚ) := [(0, 0), (200, 0), (200, 200), (0, 200)]

/-- Witness for densityScale_loop_area on the 100 px and 200 px square
strokes (loop areas 10000 and 40000). -/
theorem densityScale_loop_area_witness :
    polyAreaPx2 squareStroke < polyAreaPx2 bigSquareStroke ∧
    (1 ≤ polyAreaPx2 squareStroke ∧
      densityScale (56 * 56) = 1 ∧
      0.25 ≤ densityScale (polyAreaPx2 squareStroke : ℝ) ∧
      densityScale (polyAreaPx2 squareStroke : ℝ) ≤ 1 ∧
      (56 * 56 < (polyAreaPx2 squareStroke : ℝ) →
        densityScale (polyAreaPx2 squareStroke : ℝ) < 1) ∧
      densityScale (polyAreaPx2 bigSquareStroke : ℝ) ≤
        densityScale (polyAreaPx2 squareStroke : ℝ) ∧
      (0.25 < densityScale (polyAreaPx2 squareStroke : ℝ) →
        densityScale (polyAreaPx2 squareStroke : ℝ) < 1 →
        densityScale (polyAreaPx2 bigSquareStroke : ℝ) <
          densityScale (polyAreaPx2 squareStroke : ℝ))) :=
  ⟨by norm_num [polyAreaPx2, shoelaceSum, squareStroke, bigSquareStroke, List.rotate],
   densityScale_loop_area squareStroke bigSquareStroke
     (by norm_num [polyAreaPx2, shoelaceSum, squareStroke, bigSquareStroke, List.rotate])⟩

/-- C5 amended: the glass break threshold is monotone non-decreasing in
footprint area and mass, strictly increasing in mass, and strictly
increasing in area provided the larger area exceeds 16 px² (the area at
which sqrt of the metric area passes the 0.08 floor of the scale term). -/
theorem glassThreshold_monotone (a1 m1 a2 m2 : ℝ) (h0 : 0 ≤ a1) (ha : a1 ≤ a2)
    (hm : m1 ≤ m2) :
    GlassBreakThreshold a1 m1 ≤ GlassBreakThreshold a2 m2 ∧
    (m1 < m2 → GlassBreakThreshold a1 m1 < GlassBreakThreshold a2 m2) ∧
    (a1 < a2 → 16 < a2 → GlassBreakThreshold a1 m1 < GlassBreakThreshold a2 m2) := by
  have hc : (0 : ℝ) < kInvPixelsPerMeterR := by unfold kInvPixelsPerMeterR; norm_num
  have h1nn : (0 : ℝ) ≤ a1 * kInvPixelsPerMeterR * kInvPixelsPerMeterR :=
    mul_nonneg (mul_nonneg h0 hc.le) hc.le
  have hsle : Real.sqrt (a1 * kInvPixelsPerMeterR * kInvPixelsPerMeterR) ≤
      Real.sqrt (a2 * kInvPixelsPerMeterR * kInvPixelsPerMeterR) := by
    apply Real.sqrt_le_sqrt
    exact mul_le_mul_of_nonneg_right (mul_le_mul_of_nonneg_right ha hc.le) hc.le
  have hmaxle : max 0.08 (Real.sqrt (a1 * kInvPixelsPerMeterR * kInvPixelsPerMeterR)) ≤
      max 0.08 (Real.sqrt (a2 * kInvPixelsPerMeterR * kInvPixelsPerMeterR)) :=
    max_le_max le_rfl hsle
  refine ⟨?_, ?_, ?_⟩
  · unfold GlassBreakThreshold
    nlinarith [hmaxle]
  · intro h
    unfold GlassBreakThreshold
    nlinarith [hmaxle]
  · intro hlt h16
    have hs2 : (0.08 : ℝ) <
        Real.sqrt (a2 * kInvPixelsPerMeterR * kInvPixelsPerMeterR) := by
      have he : ((0.08 : ℝ)) ^ 2 < a2 * kInvPixelsPerMeterR * kInvPixelsPerMeterR := by
        unfold kInvPixelsPerMeterR
        nlinarith
      calc (0.08 : ℝ) = Real.sqrt (0.08 ^ 2) := by
            rw [Real.sqrt_sq (by norm_num)]
        _ < _ := Real.sqrt_lt_sqrt (by positivity) he
    have hslt : Real.sqrt (a1 * kInvPixelsPerMeterR * kInvPixelsPerMeterR) <
        Real.sqrt (a2 * kInvPixelsPerMeterR * kInvPixelsPerMeterR) := by
      apply Real.sqrt_lt_sqrt h1nn
      exact mul_lt_mul_of_pos_right (mul_lt_mul_of_pos_right hlt hc) hc
    have hmx : max 0.08 (Real.sqrt (a1 * kInvPixelsPerMeterR * kInvPixelsPerMeterR)) <
        max 0.08 (Real.sqrt (a2 * kInvPixelsPerMeterR * kInvPixelsPerMeterR)) := by
      rw [max_eq_right hs2.le]
      exact max_lt hs2 hslt
    unfold GlassBreakThreshold
    nlinarith [hmx]

/-- C5 counterexample: footprint areas 1 px² and 4 px² at equal mass give
exactly equal break thresholds (both sqrt terms fall below the 0.08
floor), so the threshold is not strictly increasing in area. -/
theorem glassThreshold_area_not_strict :
    (1 : ℝ) ≤ 4 ∧ (1 : ℝ) < 4 ∧ (1 : ℝ) ≤ 1 ∧
    ¬ GlassBreakThreshold 1 1 < GlassBreakThreshold 4 1 := by
  have h1 : GlassBreakThreshold 1 1 = GlassBreakThreshold 4 1 := by
    unfold GlassBreakThreshold kInvPixelsPerMeterR
    have e1 : (1 : ℝ) * (1 / 50) * (1 / 50) = (1 / 50) ^ 2 := by norm_num
    have e2 : (4 : ℝ) * (1 / 50) * (1 / 50) = (2 / 50) ^ 2 := by norm_num
    rw [e1, e2, Real.sqrt_sq (by norm_num), Real.sqrt_sq (by norm_num),
      max_eq_left (by norm_num), max_eq_left (by norm_num)]
  exact ⟨by norm_num, by norm_num, le_refl 1, by rw [h1]; exact lt_irrefl _⟩

/-- Witness for glassThreshold_monotone at areas 2500 and 10000 and
masses 1 and 2. -/
theorem glassThreshold_monotone_witness :
    (0 : ℝ) ≤ 2500 ∧ (2500 : ℝ) ≤ 10000 ∧ (1 : ℝ) ≤ 2 ∧
    (GlassBreakThreshold 2500 1 ≤ GlassBreakThreshold 10000 2 ∧
      ((1 : ℝ) < 2 → GlassBreakThreshold 2500 1 < GlassBreakThreshold 10000 2) ∧
      ((2500 : ℝ) < 10000 → (16 : ℝ) < 10000 →
        GlassBreakThreshold 2500 1 < GlassBreakThreshold 10000 2)) :=
  ⟨by norm_num, by norm_num, by norm_num,
   glassThreshold_monotone 2500 1 10000 2 (by norm_num) (by norm_num) (by norm_num)⟩

/-- dragSpeed is the norm reported by b2Length, hence non-negative. -/
lemma dragSpeed_nonneg (v : ℝ × ℝ) : 0 ≤ dragSpeed v := Real.sqrt_nonneg _

/-- Scaling the stored velocity scales its b2Length by the absolute scale. -/
lemma dragSpeed_smul (c : ℝ) (v : ℝ × ℝ) :
    dragSpeed (c * v.1, c * v.2) = |c| * dragSpeed v := by
  unfold dragSpeed
  rw [show c * v.1 * (c * v.1) + c * v.2 * (c * v.2) =
      c ^ 2 * (v.1 * v.1 + v.2 * v.2) by ring]
  rw [Real.sqrt_mul (sq_nonneg c), Real.sqrt_sq_eq_abs]

/-- The spin set on circular bodies, times the clamped radius, equals 0.8
times the horizontal component of the applied velocity. -/
lemma circleSpin_radius (radiusPx : ℝ) (w : ℝ × ℝ) :
    circleReleaseSpin radiusPx w * max 0.01 (radiusPx * (1 / 50)) = 0.8 * w.1 := by
  unfold circleReleaseSpin
  have hr : (0 : ℝ) < max 0.01 (radiusPx * (1 / 50)) :=
    lt_of_lt_of_le (by norm_num) (le_max_left _ _)
  field_simp
  ring

/-- C7: the velocity EndBodyDrag applies never exceeds the maximum throw
speed; when the stored release velocity exceeds that maximum the applied
velocity is a positive scalar multiple of it (same direction); and the
spin given to a circular body times its clamped radius equals 0.8 times
the horizontal applied velocity (spin proportional to horizontal release
velocity over radius, scaled down by 0.8). -/
theorem endDrag_release_spec (v : ℝ × ℝ) (radiusPx : ℝ) :
    dragSpeed (releaseVelocity v) ≤ kMaxRelease ∧
    (kMaxRelease < dragSpeed v →
      ∃ c : ℝ, 0 < c ∧ releaseVelocity v = (c * v.1, c * v.2)) ∧
    circleReleaseSpin radiusPx (releaseVelocity v) * max 0.01 (radiusPx * (1 / 50)) =
      0.8 * (releaseVelocity v).1 := by
  by_cases h : kMaxRelease < dragSpeed v ∧ 0 < dragSpeed v
  · have hrv : releaseVelocity v =
        (kMaxRelease / dragSpeed v * v.1, kMaxRelease / dragSpeed v * v.2) := by
      unfold releaseVelocity
      rw [if_pos h]
    have hc : 0 < kMaxRelease / dragSpeed v :=
      div_pos (by unfold kMaxRelease; norm_num) h.2
    refine ⟨?_, fun _ => ⟨kMaxRelease / dragSpeed v, hc, hrv⟩, circleSpin_radius _ _⟩
    rw [hrv, dragSpeed_smul, abs_of_pos hc, div_mul_cancel₀ _ (ne_of_gt h.2)]
  · have hrv : releaseVelocity v = v := by
      unfold releaseVelocity
      rw [if_neg h]
    have h30 : (0 : ℝ) < kMaxRelease := by unfold kMaxRelease; norm_num
    have hle : dragSpeed v ≤ kMaxRelease := by
      by_contra hgt
      push_neg at hgt
      exact h ⟨hgt, lt_trans h30 hgt⟩
    refine ⟨?_, fun hf => absurd ⟨hf, lt_trans h30 hf⟩ h, circleSpin_radius _ _⟩
    rw [hrv]
    exact hle

/-- Witness for endDrag_release_spec at stored velocity (40, 0), which
exceeds the 30 m/s cap, and a 25 px radius circle. -/
theorem endDrag_release_spec_witness :
    kMaxRelease < dragSpeed (40, 0) ∧
    (dragSpeed (releaseVelocity (40, 0)) ≤ kMaxRelease ∧
      (kMaxRelease < dragSpeed (40, 0) →
        ∃ c : ℝ, 0 < c ∧ releaseVelocity (40, 0) = (c * 40, c * 0)) ∧
      circleReleaseSpin 25 (releaseVelocity (40, 0)) * max 0.01 (25 * (1 / 50)) =
        0.8 * (releaseVelocity (40, 0)).1) := by
  have hs : dragSpeed ((40 : ℝ), (0 : ℝ)) = 40 := by
    unfold dragSpeed
    rw [show ((40 : ℝ), (0 : ℝ)).1 * ((40 : ℝ), (0 : ℝ)).1 +
        ((40 : ℝ), (0 : ℝ)).2 * ((40 : ℝ), (0 : ℝ)).2 = 40 ^ 2 by norm_num]
    exact Real.sqrt_sq (by norm_num)
  have hfast : kMaxRelease < dragSpeed (40, 0) := by
    rw [hs]
    unfold kMaxRelease
    norm_num
  exact ⟨hfast, endDrag_release_spec (40, 0) 25⟩

/-- While the (already decremented) grace counter is still positive, one
UpdateGlass tick performs only decay: no stress can accumulate. -/
lemma glassStep_in_grace (inp : GlassInput) (b : GlassBody) (hg : b.isGlass = true)
    (h1 : 1 < b.glassGraceFrames) :
    glassStep inp b = glassDecay b := by
  have hd : 0 < (glassDecay b).glassGraceFrames := by
    unfold glassDecay
    simp only
    rw [if_pos (by omega : (0 : ℤ) < b.glassGraceFrames)]
    omega
  simp [glassStep, hg, hd]

/-- One in-grace tick on an explicit zero-stress state just counts the
grace down by one. -/
lemma glassStep_explicit (inp : GlassInput) (g : ℤ) (m a : ℚ) (h1 : 1 < g) :
    glassStep inp (GlassBody.mk true 0 g m a) = GlassBody.mk true 0 (g - 1) m a := by
  rw [glassStep_in_grace inp _ rfl h1]
  unfold glassDecay
  simp only
  rw [if_pos (by omega : (0 : ℤ) < g)]
  rw [max_eq_left (by norm_num [kFixedDt] : (0 : ℚ) - kFixedDt * 10 ≤ 0)]

/-- Iterating fewer ticks than the remaining grace from a zero-stress
glass state only counts the grace down; stress stays zero. -/
lemma glassIter_in_grace (inputs : List GlassInput) (g : ℤ) (m a : ℚ)
    (hlen : (inputs.length : ℤ) < g) :
    glassIter inputs (GlassBody.mk true 0 g m a) =
      GlassBody.mk true 0 (g - inputs.length) m a := by
  induction inputs generalizing g with
  | nil => simp [glassIter]
  | cons i tl ih =>
    have h1 : 1 < g := by
      simp only [List.length_cons] at hlen
      push_cast at hlen
      omega
    have hlen2 : (tl.length : ℤ) < g - 1 := by
      simp only [List.length_cons] at hlen
      push_cast at hlen ⊢
      omega
    have hrec := ih (g - 1) hlen2
    unfold glassIter at hrec ⊢
    rw [List.foldl_cons, glassStep_explicit i g m a h1, hrec]
    congr 1
    simp only [List.length_cons]
    push_cast
    ring

/-- C2 amended: a body toggled fragile receives grace 60 and cannot enter
the break set on any of ticks 1 through 59 after the toggle, whatever
contact impulses, resting loads and hit events occur; the body can break
at tick 60 or later, because the grace counter is decremented before the
accumulation guard is evaluated, so accumulation already resumes on the
tick in which the countdown reaches zero. -/
theorem glass_grace_protects (b0 : GlassBody) (pre : List GlassInput) (inp : GlassInput)
    (hb : b0.isGlass = false) (hlen : pre.length ≤ 58) :
    ¬ TickBreaks inp (glassIter pre (ToggleFeatureGlass b0)) := by
  have htog : ToggleFeatureGlass b0 = GlassBody.mk true 0 60 b0.mass b0.areaPx2 := by
    simp [ToggleFeatureGlass, hb]
  rw [htog, glassIter_in_grace pre 60 b0.mass b0.areaPx2 (by omega)]
  rintro ⟨-, hgr, -⟩
  unfold glassDecay at hgr
  simp only at hgr
  rw [if_pos (by omega : (0 : ℤ) < 60 - (pre.length : ℤ))] at hgr
  omega

/-- The demo pane of the C2 counterexample: mass 1 kg, footprint 2500 px²
(one square meter), not yet fragile. -/
def glassDemoBody : GlassBody :=
  { isGlass := false, glassStress := 0, glassGraceFrames := 0, mass := 1, areaPx2 := 2500 }

/-- An arbitrarily large impact: one hit event with approach speed
1000000 against reported mass 1, no contacts, no resting load. -/
def bigHitInput : GlassInput :=
  { pointImpulses := [], loadMasses := [], hits := [(1000000, 1)] }

/-- C2 counterexample: toggle the demo pane fragile (grace 60), feed the
huge impact on every tick; on tick 60 (after 59 completed ticks) the body
already satisfies the break condition, contradicting the claim that it
survives ticks 1 through 60. -/
theorem glass_breaks_on_tick_60 :
    TickBreaks bigHitInput
      (glassIter (List.replicate 59 bigHitInput) (ToggleFeatureGlass glassDemoBody)) := by
  have htog : ToggleFeatureGlass glassDemoBody = GlassBody.mk true 0 60 1 2500 := by
    simp [ToggleFeatureGlass, glassDemoBody]
  rw [htog, glassIter_in_grace _ 60 1 2500 (by simp)]
  have hstate : (60 : ℤ) - (List.replicate 59 bigHitInput).length = 1 := by
    simp
  rw [hstate]
  refine ⟨rfl, ?_, ?_⟩
  · unfold glassDecay
    simp
  · refine ⟨900000, ?_, ?_⟩
    · show (900000 : ℚ) ∈ hitStresses bigHitInput.hits
        (contactStress bigHitInput
          (glassDecay (GlassBody.mk true 0 1 1 2500)).glassStress
          (GlassBody.mk true 0 1 1 2500).mass)
      have hdec : (glassDecay (GlassBody.mk true 0 1 1 2500)).glassStress = 0 := by
        unfold glassDecay
        simp only
        rw [max_eq_left (by norm_num [kFixedDt] : (0 : ℚ) - kFixedDt * 10 ≤ 0)]
      rw [hdec]
      have hcs : contactStress bigHitInput 0 1 = 0 := by
        unfold contactStress bigHitInput
        norm_num
      rw [hcs]
      unfold bigHitInput hitStresses
      simp [List.scanl]
      norm_num
    · show GlassBreakThreshold ((2500 : ℚ) : ℝ) ((1 : ℚ) : ℝ) < ((900000 : ℚ) : ℝ)
      push_cast
      unfold GlassBreakThreshold kInvPixelsPerMeterR
      rw [show (2500 : ℝ) * (1 / 50) * (1 / 50) = 1 by norm_num, Real.sqrt_one,
        max_eq_right (by norm_num : (0.08 : ℝ) ≤ 1)]
      norm_num

/-- Witness for glass_grace_protects: one huge-impact tick right after
toggling the demo pane does not break it. -/
theorem glass_grace_protects_witness :
    glassDemoBody.isGlass = false ∧ [bigHitInput].length ≤ 58 ∧
    ¬ TickBreaks bigHitInput (glassIter [bigHitInput] (ToggleFeatureGlass glassDemoBody)) :=
  ⟨rfl, by norm_num,
   glass_grace_protects glassDemoBody [bigHitInput] bigHitInput rfl (by norm_num)⟩

/-- One host-collection step only ever adds hosts that are valid and
different from the toggled body. -/
lemma collectHostsStep_mem (bv : ℕ → Bool) (wk : ℕ) (acc : List ℕ) (j : JointEntry)
    (h : ∀ x ∈ acc, bv x = true ∧ x ≠ wk) :
    ∀ x ∈ collectHostsStep bv wk acc j, bv x = true ∧ x ≠ wk := by
  intro x hx
  unfold collectHostsStep at hx
  by_cases c1 : (j.jointValid && jointAttached wk j) = true
  swap
  · rw [if_neg c1] at hx
    exact h x hx
  rw [if_pos c1] at hx
  by_cases c2 : (bv j.bodyA && bv j.bodyB && !(j.bodyA == j.bodyB)) = true
  swap
  · rw [if_neg c2] at hx
    exact h x hx
  rw [if_pos c2] at hx
  by_cases c3 : (bv (hostOf wk j) && !(hostOf wk j == wk)) = true
  swap
  · rw [if_neg c3] at hx
    exact h x hx
  rw [if_pos c3] at hx
  by_cases c4 : acc.contains (hostOf wk j) = true
  · rw [if_pos c4] at hx
    exact h x hx
  · rw [if_neg c4] at hx
    rcases List.mem_append.mp hx with hx | hx
    · exact h x hx
    · have hx2 : x = hostOf wk j := by simpa using hx
      subst hx2
      simp only [Bool.and_eq_true, Bool.not_eq_true', beq_eq_false_iff_ne, ne_eq] at c3
      exact ⟨c3.1, c3.2⟩

/-- Every host collected over a joint list is valid and distinct from the
toggled body. -/
lemma collectHosts_foldl_mem (bv : ℕ → Bool) (wk : ℕ) (js : List JointEntry) :
    ∀ acc : List ℕ, (∀ x ∈ acc, bv x = true ∧ x ≠ wk) →
    ∀ x ∈ js.foldl (collectHostsStep bv wk) acc, bv x = true ∧ x ≠ wk := by
  induction js with
  | nil => exact fun acc h => h
  | cons j tl ih =>
    intro acc h
    rw [List.foldl_cons]
    exact ih _ (collectHostsStep_mem bv wk acc j h)

/-- Specialization of collectHosts_foldl_mem to the empty accumulator. -/
lemma collectHosts_mem (bv : ℕ → Bool) (wk : ℕ) (js : List JointEntry) :
    ∀ x ∈ collectHosts bv wk js, bv x = true ∧ x ≠ wk :=
  collectHosts_foldl_mem bv wk js [] (by simp)

/-- A host-collection step returns the accumulator unchanged or with one
host appended. -/
lemma collectHostsStep_shape (bv : ℕ → Bool) (wk : ℕ) (acc : List ℕ) (j : JointEntry) :
    collectHostsStep bv wk acc j = acc ∨
    collectHostsStep bv wk acc j = acc ++ [hostOf wk j] := by
  unfold collectHostsStep
  repeat' split
  all_goals simp

/-- Folding host collection never empties a non-empty accumulator. -/
lemma collectHosts_foldl_ne_nil (bv : ℕ → Bool) (wk : ℕ) (js : List JointEntry) :
    ∀ acc : List ℕ, acc ≠ [] → js.foldl (collectHostsStep bv wk) acc ≠ [] := by
  induction js with
  | nil => exact fun acc h => h
  | cons j tl ih =>
    intro acc h
    rw [List.foldl_cons]
    apply ih
    rcases collectHostsStep_shape bv wk acc j with hs | hs <;> rw [hs]
    · exact h
    · simp

/-- A valid attached joint with valid, distinct endpoints makes the
host-collection step produce a non-empty accumulator. -/
lemma collectHostsStep_good (bv : ℕ → Bool) (wk : ℕ) (acc : List ℕ) (j : JointEntry)
    (hv : j.jointValid = true) (hatt : jointAttached wk j = true)
    (hA : bv j.bodyA = true) (hB : bv j.bodyB = true) (hAB : j.bodyA ≠ j.bodyB) :
    collectHostsStep bv wk acc j ≠ [] := by
  have hhost : bv (hostOf wk j) = true ∧ hostOf wk j ≠ wk := by
    unfold hostOf
    by_cases hAwk : (j.bodyA == wk) = true
    · rw [if_pos hAwk]
      refine ⟨hB, fun hBwk => hAB ?_⟩
      have hAwk2 : j.bodyA = wk := by simpa using hAwk
      rw [hAwk2, hBwk]
    · rw [if_neg hAwk]
      exact ⟨hA, by simpa using hAwk⟩
  unfold collectHostsStep
  rw [if_pos (by simp [hv, hatt]), if_pos (by simp [hA, hB, hAB]),
    if_pos (by simp [hhost.1, hhost.2])]
  by_cases hc : acc.contains (hostOf wk j) = true
  · rw [if_pos hc]
    intro hnil
    subst hnil
    simp at hc
  · rw [if_neg hc]
    simp

/-- When some valid attached joint has valid, distinct endpoints, the
collected host list is non-empty. -/
lemma collectHosts_ne_nil (bv : ℕ → Bool) (wk : ℕ) (js : List JointEntry)
    (j0 : JointEntry) (hj0 : j0 ∈ js) (hv : j0.jointValid = true)
    (hatt : jointAttached wk j0 = true) (hA : bv j0.bodyA = true)
    (hB : bv j0.bodyB = true) (hAB : j0.bodyA ≠ j0.bodyB) :
    collectHosts bv wk js ≠ [] := by
  obtain ⟨l1, l2, rfl⟩ := List.append_of_mem hj0
  unfold collectHosts
  rw [List.foldl_append, List.foldl_cons]
  exact collectHosts_foldl_ne_nil bv wk l2 _
    (collectHostsStep_good bv wk _ j0 hv hatt hA hB hAB)

/-- When every host is valid and distinct from the toggled body and the
body itself is valid, the joint recreation filterMap is a plain map. -/
lemma recreated_eq_map (bv : ℕ → Bool) (wk : ℕ) (hosts : List ℕ) (k : Bool)
    (hwk : bv wk = true) (hh : ∀ x ∈ hosts, bv x = true ∧ x ≠ wk) :
    hosts.filterMap (fun h =>
      if bv h && bv wk && !(h == wk) then some (JointEntry.mk true h wk k) else none) =
    hosts.map (fun h => JointEntry.mk true h wk k) := by
  induction hosts with
  | nil => rfl
  | cons x tl ih =>
    have hx := hh x (by simp)
    have hfx : (if bv x && bv wk && !(x == wk) then
        some (JointEntry.mk true x wk k) else none) = some (JointEntry.mk true x wk k) := by
      rw [if_pos (by simp [hx.1, hwk, hx.2])]
    simp only [List.filterMap_cons, hfx, List.map_cons]
    rw [ih (fun y hy => hh y (by simp [hy]))]

/-- C3 amended: ToggleWheelMode is its own inverse on the joint kinds of a
body whose valid attached joints all have the same kind (all weld or all
wheel) and well-formed endpoints: after applying it twice, every valid
joint touching the body again has the original kind.  (With mixed kinds
the global hasWheelJoint flag collapses both toggles to the same uniform
kind, see the counterexample.) -/
theorem toggleWheel_involution_uniform (bv : ℕ → Bool) (wk : ℕ) (js : List JointEntry)
    (b : Bool) (hwk : bv wk = true)
    (hwf : ∀ j ∈ js, j.jointValid = true → jointAttached wk j = true →
      bv j.bodyA = true ∧ bv j.bodyB = true ∧ j.bodyA ≠ j.bodyB)
    (huni : ∀ j ∈ js, j.jointValid = true → jointAttached wk j = true → j.isWheelJoint = b)
    (j0 : JointEntry) (hj0 : j0 ∈ js) (hj0v : j0.jointValid = true)
    (hj0a : jointAttached wk j0 = true)
    (j : JointEntry) (hj : j ∈ ToggleWheelMode bv wk (ToggleWheelMode bv wk js))
    (hjv : j.jointValid = true) (hja : jointAttached wk j = true) :
    j.isWheelJoint = b := by
  have hany1 : hasAnyAttached wk js = true := by
    unfold hasAnyAttached
    rw [List.any_eq_true]
    exact ⟨j0, hj0, by simp [hj0a, hj0v]⟩
  have hW1 : hasWheelAttached wk js = b := by
    unfold hasWheelAttached
    cases b with
    | true =>
      rw [List.any_eq_true]
      exact ⟨j0, hj0, by simp [hj0a, hj0v, huni j0 hj0 hj0v hj0a]⟩
    | false =>
      apply Bool.eq_false_iff.mpr
      intro h
      obtain ⟨x, hx, hp⟩ := List.any_eq_true.mp h
      simp only [Bool.and_eq_true] at hp
      have hxw := huni x hx hp.1.2 hp.1.1
      rw [hxw] at hp
      exact Bool.false_ne_true hp.2
  have hwfj0 := hwf j0 hj0 hj0v hj0a
  have hne1 : collectHosts bv wk js ≠ [] :=
    collectHosts_ne_nil bv wk js j0 hj0 hj0v hj0a hwfj0.1 hwfj0.2.1 hwfj0.2.2
  have e1 : ToggleWheelMode bv wk js =
      js.filter (fun j => j.jointValid && !jointAttached wk j) ++
      (collectHosts bv wk js).map (fun h => JointEntry.mk true h wk (!b)) := by
    unfold ToggleWheelMode
    rw [if_neg (by simp [hwk]), if_neg (by simp [hany1]), hW1,
      recreated_eq_map bv wk _ (!b) hwk (collectHosts_mem bv wk js)]
  obtain ⟨h0, hh0⟩ := List.exists_mem_of_ne_nil _ hne1
  have hmem0 : JointEntry.mk true h0 wk (!b) ∈
      js.filter (fun j => j.jointValid && !jointAttached wk j) ++
      (collectHosts bv wk js).map (fun h => JointEntry.mk true h wk (!b)) :=
    List.mem_append_right _ (List.mem_map_of_mem _ hh0)
  have hany2 : hasAnyAttached wk
      (js.filter (fun j => j.jointValid && !jointAttached wk j) ++
        (collectHosts bv wk js).map (fun h => JointEntry.mk true h wk (!b))) = true := by
    unfold hasAnyAttached
    rw [List.any_eq_true]
    exact ⟨_, hmem0, by simp [jointAttached]⟩
  have hkept_not_att : ∀ x ∈ js.filter (fun j => j.jointValid && !jointAttached wk j),
      jointAttached wk x = false := by
    intro x hx
    have hpx := (List.mem_filter.mp hx).2
    simp only [Bool.and_eq_true, Bool.not_eq_true'] at hpx
    exact hpx.2
  have hW2 : hasWheelAttached wk
      (js.filter (fun j => j.jointValid && !jointAttached wk j) ++
        (collectHosts bv wk js).map (fun h => JointEntry.mk true h wk (!b))) = !b := by
    unfold hasWheelAttached
    rw [List.any_append]
    have hkeptfalse : (js.filter (fun j => j.jointValid && !jointAttached wk j)).any
        (fun j => jointAttached wk j && j.jointValid && j.isWheelJoint) = false := by
      apply Bool.eq_false_iff.mpr
      intro h
      obtain ⟨x, hx, hp⟩ := List.any_eq_true.mp h
      simp only [Bool.and_eq_true] at hp
      rw [hkept_not_att x hx] at hp
      exact Bool.false_ne_true hp.1.1
    rw [hkeptfalse, Bool.false_or]
    cases b with
    | true =>
      apply Bool.eq_false_iff.mpr
      intro h
      obtain ⟨x, hx, hp⟩ := List.any_eq_true.mp h
      obtain ⟨h1, hh1, rfl⟩ := List.mem_map.mp hx
      simp at hp
    | false =>
      simp only [Bool.not_false]
      rw [List.any_eq_true]
      exact ⟨JointEntry.mk true h0 wk (!false), List.mem_map_of_mem _ hh0,
        by simp [jointAttached]⟩
  have e2 : ToggleWheelMode bv wk
      (js.filter (fun j => j.jointValid && !jointAttached wk j) ++
        (collectHosts bv wk js).map (fun h => JointEntry.mk true h wk (!b))) =
      (js.filter (fun j => j.jointValid && !jointAttached wk j) ++
        (collectHosts bv wk js).map (fun h => JointEntry.mk true h wk (!b))).filter
          (fun j => j.jointValid && !jointAttached wk j) ++
      (collectHosts bv wk
        (js.filter (fun j => j.jointValid && !jointAttached wk j) ++
          (collectHosts bv wk js).map (fun h => JointEntry.mk true h wk (!b)))).map
        (fun h => JointEntry.mk true h wk b) := by
    unfold ToggleWheelMode
    rw [if_neg (by simp [hwk]), if_neg (by simp [hany2]), hW2,
      recreated_eq_map bv wk _ (!!b) hwk (collectHosts_mem bv wk _)]
    rw [Bool.not_not]
  rw [e1, e2] at hj
  rcases List.mem_append.mp hj with hj2 | hj2
  · have hpx := (List.mem_filter.mp hj2).2
    simp only [Bool.and_eq_true, Bool.not_eq_true'] at hpx
    rw [hja] at hpx
    exact absurd hpx.2 (by simp)
  · obtain ⟨h1, hh1, rfl⟩ := List.mem_map.mp hj2
    rfl

/-- A mixed joint set: one weld joint and one wheel joint both attached to
body key 0, with hosts 1 and 2. -/
def mixedJoints : List JointEntry :=
  [⟨true, 1, 0, false⟩, ⟨true, 2, 0, true⟩]

/-- Engine validity for the C3 demo scenes: keys 0, 1, 2 are live. -/
def demoBodyValid : ℕ → Bool := fun k => decide (k ≤ 2)

/-- C3 counterexample: starting from one weld and one wheel joint on the
same body, the first toggle converts both to weld (some attached joint
was a wheel), the second converts both to wheel, so the joint that was
originally a weld ends as a wheel joint: two toggles do not restore the
original kinds when the attached kinds are mixed. -/
theorem toggleWheel_not_involutive_mixed :
    mixedJoints.map (fun j => j.isWheelJoint) = [false, true] ∧
    ToggleWheelMode demoBodyValid 0 (ToggleWheelMode demoBodyValid 0 mixedJoints) =
      [⟨true, 1, 0, true⟩, ⟨true, 2, 0, true⟩] := by decide

/-- Witness for toggleWheel_involution_uniform: one wheel joint between
bodies 1 and 0; after two toggles the joint touching body 0 is again a
wheel joint. -/
theorem toggleWheel_involution_uniform_witness :
    demoBodyValid 0 = true ∧
    JointEntry.mk true 1 0 true ∈ ([⟨true, 1, 0, true⟩] : List JointEntry) ∧
    JointEntry.mk true 1 0 true ∈
      ToggleWheelMode demoBodyValid 0
        (ToggleWheelMode demoBodyValid 0 [⟨true, 1, 0, true⟩]) ∧
    (JointEntry.mk true 1 0 true).isWheelJoint = true :=
  ⟨by decide, by decide, by decide,
   toggleWheel_involution_uniform demoBodyValid 0 [⟨true, 1, 0, true⟩] true (by decide)
     (by decide) (by decide) ⟨true, 1, 0, true⟩ (by decide) (by decide) (by decide)
     ⟨true, 1, 0, true⟩ (by decide) (by decide) (by decide)⟩

/-- A guarded push either leaves the traversal state unchanged (and then a
true condition means the key was already visited) or inserts a fresh key
into both the visited set and the stack. -/
lemma pushIfNew_cases (cond : Bool) (x : ℕ) (v st : List ℕ) :
    (pushIfNew cond x (v, st) = (v, st) ∧ (cond = true → x ∈ v)) ∨
    (pushIfNew cond x (v, st) = (x :: v, x :: st) ∧ cond = true ∧ x ∉ v) := by
  unfold pushIfNew
  by_cases h : (cond && !(v.contains x)) = true
  · right
    rw [if_pos h]
    simp only [Bool.and_eq_true, Bool.not_eq_true'] at h
    refine ⟨rfl, h.1, fun hmem => ?_⟩
    have hc2 : v.contains x = true := by simpa using hmem
    rw [h.2] at hc2
    exact Bool.false_ne_true hc2
  · left
    rw [if_neg h]
    refine ⟨rfl, fun hc => ?_⟩
    subst hc
    by_cases hvc : v.contains x = true
    · simpa using hvc
    · have hvf : v.contains x = false := Bool.eq_false_iff.mpr hvc
      have htr : (true && !v.contains x) = true := by rw [hvf]; rfl
      exact absurd htr h

/-- A joint satisfying the bodyA-side push condition links the current key
to its bodyB endpoint. -/
lemma jointLinks_of_condA (j : JointEntry) (cur : ℕ)
    (h : (j.jointValid && j.bodyA == cur) = true) : jointLinks j cur j.bodyB = true := by
  simp only [Bool.and_eq_true, beq_iff_eq] at h
  simp [jointLinks, h.1, h.2]

/-- A joint satisfying the bodyB-side push condition links the current key
to its bodyA endpoint. -/
lemma jointLinks_of_condB (j : JointEntry) (cur : ℕ)
    (h : (j.jointValid && j.bodyB == cur) = true) : jointLinks j cur j.bodyA = true := by
  simp only [Bool.and_eq_true, beq_iff_eq] at h
  simp [jointLinks, h.1, h.2]

/-- Any link through one joint is realized by one of its two push
conditions, with the opposite endpoint as the linked key. -/
lemma jointLinks_dest (j : JointEntry) (cur m : ℕ) (h : jointLinks j cur m = true) :
    ((j.jointValid && j.bodyA == cur) = true ∧ m = j.bodyB) ∨
    ((j.jointValid && j.bodyB == cur) = true ∧ m = j.bodyA) := by
  simp only [jointLinks, Bool.and_eq_true, Bool.or_eq_true, beq_iff_eq] at h
  rcases h with ⟨hv, ⟨hA, hB⟩ | ⟨hB, hA⟩⟩
  · exact Or.inl ⟨by simp [hv, hA], hB.symm⟩
  · exact Or.inr ⟨by simp [hv, hB], hA.symm⟩

/-- Full bookkeeping of one joint expansion: starting from a well-formed
traversal state, the state stays well-formed, both components only grow,
every newly visited key is on the stack and linked to the current key,
stack growth equals visited growth, and afterwards both endpoints of the
joint opposite to the current key are visited. -/
lemma expandJoint_spec (cur : ℕ) (j : JointEntry) (v st : List ℕ)
    (hv : v.Nodup) (hst : st.Nodup) (hsub : ∀ k ∈ st, k ∈ v)
    (hcur : cur ∈ v) (hcs : cur ∉ st) :
    (expandJoint cur (v, st) j).1.Nodup ∧
    (expandJoint cur (v, st) j).2.Nodup ∧
    (∀ k ∈ (expandJoint cur (v, st) j).2, k ∈ (expandJoint cur (v, st) j).1) ∧
    cur ∈ (expandJoint cur (v, st) j).1 ∧
    cur ∉ (expandJoint cur (v, st) j).2 ∧
    (∀ k ∈ v, k ∈ (expandJoint cur (v, st) j).1) ∧
    (∀ k ∈ st, k ∈ (expandJoint cur (v, st) j).2) ∧
    (∀ k ∈ (expandJoint cur (v, st) j).1,
      k ∈ v ∨ (k ∈ (expandJoint cur (v, st) j).2 ∧ jointLinks j cur k = true)) ∧
    (∀ k ∈ (expandJoint cur (v, st) j).2, k ∈ st ∨ k ∉ v) ∧
    ((expandJoint cur (v, st) j).2.length + v.length =
      st.length + (expandJoint cur (v, st) j).1.length) ∧
    (∀ m, jointLinks j cur m = true → m ∈ (expandJoint cur (v, st) j).1) := by
  unfold expandJoint
  rcases pushIfNew_cases (j.jointValid && j.bodyA == cur) j.bodyB v st with
    ⟨he1, hin1⟩ | ⟨he1, hc1, hB⟩
  · rw [he1]
    rcases pushIfNew_cases (j.jointValid && j.bodyB == cur) j.bodyA v st with
      ⟨he2, hin2⟩ | ⟨he2, hc2, hA⟩
    · rw [he2]
      refine ⟨hv, hst, hsub, hcur, hcs, fun k hk => hk, fun k hk => hk,
        fun k hk => Or.inl hk, fun k hk => Or.inl hk, by dsimp only, ?_⟩
      intro m hm
      rcases jointLinks_dest j cur m hm with ⟨hc, rfl⟩ | ⟨hc, rfl⟩
      · exact hin1 hc
      · exact hin2 hc
    · rw [he2]
      have hAv : j.bodyA ≠ cur := fun he => hA (he ▸ hcur)
      have hAst : j.bodyA ∉ st := fun hk => hA (hsub _ hk)
      refine ⟨List.nodup_cons.mpr ⟨hA, hv⟩, List.nodup_cons.mpr ⟨hAst, hst⟩, ?_,
        List.mem_cons_of_mem _ hcur, ?_, fun k hk => List.mem_cons_of_mem _ hk,
        fun k hk => List.mem_cons_of_mem _ hk, ?_, ?_, by simp; omega, ?_⟩
      · intro k hk
        rcases List.mem_cons.mp hk with rfl | hk
        · exact List.mem_cons_self _ _
        · exact List.mem_cons_of_mem _ (hsub _ hk)
      · intro hk
        rcases List.mem_cons.mp hk with he | hk
        · exact hAv he.symm
        · exact hcs hk
      · intro k hk
        rcases List.mem_cons.mp hk with rfl | hk
        · exact Or.inr ⟨List.mem_cons_self _ _, jointLinks_of_condB j cur hc2⟩
        · exact Or.inl hk
      · intro k hk
        rcases List.mem_cons.mp hk with rfl | hk
        · exact Or.inr hA
        · exact Or.inl hk
      · intro m hm
        rcases jointLinks_dest j cur m hm with ⟨hc, rfl⟩ | ⟨hc, rfl⟩
        · exact List.mem_cons_of_mem _ (hin1 hc)
        · exact List.mem_cons_self _ _
  · rw [he1]
    have hBv : j.bodyB ≠ cur := fun he => hB (he ▸ hcur)
    have hBst : j.bodyB ∉ st := fun hk => hB (hsub _ hk)
    rcases pushIfNew_cases (j.jointValid && j.bodyB == cur) j.bodyA
      (j.bodyB :: v) (j.bodyB :: st) with ⟨he2, hin2⟩ | ⟨he2, hc2, hA⟩
    · rw [he2]
      refine ⟨List.nodup_cons.mpr ⟨hB, hv⟩, List.nodup_cons.mpr ⟨hBst, hst⟩, ?_,
        List.mem_cons_of_mem _ hcur, ?_, fun k hk => List.mem_cons_of_mem _ hk,
        fun k hk => List.mem_cons_of_mem _ hk, ?_, ?_, by simp; omega, ?_⟩
      · intro k hk
        rcases List.mem_cons.mp hk with rfl | hk
        · exact List.mem_cons_self _ _
        · exact List.mem_cons_of_mem _ (hsub _ hk)
      · intro hk
        rcases List.mem_cons.mp hk with he | hk
        · exact hBv he.symm
        · exact hcs hk
      · intro k hk
        rcases List.mem_cons.mp hk with rfl | hk
        · exact Or.inr ⟨List.mem_cons_self _ _, jointLinks_of_condA j cur hc1⟩
        · exact Or.inl hk
      · intro k hk
        rcases List.mem_cons.mp hk with rfl | hk
        · exact Or.inr hB
        · exact Or.inl hk
      · intro m hm
        rcases jointLinks_dest j cur m hm with ⟨hc, rfl⟩ | ⟨hc, rfl⟩
        · exact List.mem_cons_self _ _
        · exact hin2 hc
    · rw [he2]
      have hAB : j.bodyA ≠ j.bodyB := fun he => hA (he ▸ List.mem_cons_self _ _)
      have hAv : j.bodyA ∉ v := fun hk => hA (List.mem_cons_of_mem _ hk)
      have hAcur : j.bodyA ≠ cur := fun he => hAv (he ▸ hcur)
      have hAst : j.bodyA ∉ st := fun hk => hAv (hsub _ hk)
      have hABst : j.bodyA ∉ j.bodyB :: st := by
        intro hk
        rcases List.mem_cons.mp hk with he | hk
        · exact hAB he
        · exact hAst hk
      refine ⟨List.nodup_cons.mpr ⟨hA, List.nodup_cons.mpr ⟨hB, hv⟩⟩,
        List.nodup_cons.mpr ⟨hABst, List.nodup_cons.mpr ⟨hBst, hst⟩⟩, ?_,
        List.mem_cons_of_mem _ (List.mem_cons_of_mem _ hcur), ?_, ?_, ?_, ?_, ?_,
        by simp; omega, ?_⟩
      · intro k hk
        rcases List.mem_cons.mp hk with rfl | hk
        · exact List.mem_cons_self _ _
        rcases List.mem_cons.mp hk with rfl | hk
        · exact List.mem_cons_of_mem _ (List.mem_cons_self _ _)
        · exact List.mem_cons_of_mem _ (List.mem_cons_of_mem _ (hsub _ hk))
      · intro hk
        rcases List.mem_cons.mp hk with he | hk
        · exact hAcur he.symm
        rcases List.mem_cons.mp hk with he | hk
        · exact hBv he.symm
        · exact hcs hk
      · exact fun k hk => List.mem_cons_of_mem _ (List.mem_cons_of_mem _ hk)
      · exact fun k hk => List.mem_cons_of_mem _ (List.mem_cons_of_mem _ hk)
      · intro k hk
        rcases List.mem_cons.mp hk with rfl | hk
        · exact Or.inr ⟨List.mem_cons_self _ _, jointLinks_of_condB j cur hc2⟩
        rcases List.mem_cons.mp hk with rfl | hk
        · exact Or.inr ⟨List.mem_cons_of_mem _ (List.mem_cons_self _ _),
            jointLinks_of_condA j cur hc1⟩
        · exact Or.inl hk
      · intro k hk
        rcases List.mem_cons.mp hk with rfl | hk
        · exact Or.inr hAv
        rcases List.mem_cons.mp hk with rfl | hk
        · exact Or.inr hB
        · exact Or.inl hk
      · intro m hm
        rcases jointLinks_dest j cur m hm with ⟨hc, rfl⟩ | ⟨hc, rfl⟩
        · exact List.mem_cons_of_mem _ (List.mem_cons_self _ _)
        · exact List.mem_cons_self _ _

/-- linksKeys on a cons splits into the head joint and the tail. -/
lemma linksKeys_cons (j : JointEntry) (tl : List JointEntry) (x y : ℕ) :
    linksKeys (j :: tl) x y = (jointLinks j x y || linksKeys tl x y) := by
  simp [linksKeys]

/-- Folding one full pass of joint expansion preserves the traversal
bookkeeping: both components grow, new visited keys are on the stack and
linked to the current key, stack growth equals visited growth, and every
key linked to the current key by some joint of the list ends up visited. -/
lemma foldExpand_spec (cur : ℕ) (js : List JointEntry) :
    ∀ v st : List ℕ, v.Nodup → st.Nodup → (∀ k ∈ st, k ∈ v) → cur ∈ v → cur ∉ st →
    (js.foldl (expandJoint cur) (v, st)).1.Nodup ∧
    (js.foldl (expandJoint cur) (v, st)).2.Nodup ∧
    (∀ k ∈ (js.foldl (expandJoint cur) (v, st)).2,
      k ∈ (js.foldl (expandJoint cur) (v, st)).1) ∧
    cur ∈ (js.foldl (expandJoint cur) (v, st)).1 ∧
    cur ∉ (js.foldl (expandJoint cur) (v, st)).2 ∧
    (∀ k ∈ v, k ∈ (js.foldl (expandJoint cur) (v, st)).1) ∧
    (∀ k ∈ st, k ∈ (js.foldl (expandJoint cur) (v, st)).2) ∧
    (∀ k ∈ (js.foldl (expandJoint cur) (v, st)).1,
      k ∈ v ∨ (k ∈ (js.foldl (expandJoint cur) (v, st)).2 ∧ linksKeys js cur k = true)) ∧
    (∀ k ∈ (js.foldl (expandJoint cur) (v, st)).2, k ∈ st ∨ k ∉ v) ∧
    ((js.foldl (expandJoint cur) (v, st)).2.length + v.length =
      st.length + (js.foldl (expandJoint cur) (v, st)).1.length) ∧
    (∀ m, linksKeys js cur m = true → m ∈ (js.foldl (expandJoint cur) (v, st)).1) := by
  induction js with
  | nil =>
    intro v st hv hst hsub hcur hcs
    simp only [List.foldl_nil]
    refine ⟨hv, hst, hsub, hcur, hcs, fun k hk => hk, fun k hk => hk,
      fun k hk => Or.inl hk, fun k hk => Or.inl hk, by dsimp only, ?_⟩
    intro m hm
    simp [linksKeys] at hm
  | cons j tl ih =>
    intro v st hv hst hsub hcur hcs
    obtain ⟨E1, E2, E3, E4, E5, E6, E7, E8, E9, E10, E11⟩ :=
      expandJoint_spec cur j v st hv hst hsub hcur hcs
    obtain ⟨I1, I2, I3, I4, I5, I6, I7, I8, I9, I10, I11⟩ :=
      ih (expandJoint cur (v, st) j).1 (expandJoint cur (v, st) j).2 E1 E2 E3 E4 E5
    have hfold : (j :: tl).foldl (expandJoint cur) (v, st) =
        tl.foldl (expandJoint cur) (expandJoint cur (v, st) j) := List.foldl_cons _ _
    have heta : tl.foldl (expandJoint cur) (expandJoint cur (v, st) j) =
        tl.foldl (expandJoint cur)
          ((expandJoint cur (v, st) j).1, (expandJoint cur (v, st) j).2) := rfl
    rw [hfold, heta]
    refine ⟨I1, I2, I3, I4, I5, fun k hk => I6 k (E6 k hk), fun k hk => I7 k (E7 k hk),
      ?_, ?_, ?_, ?_⟩
    · intro k hk
      rcases I8 k hk with hk2 | ⟨hk2, hl⟩
      · rcases E8 k hk2 with hk3 | ⟨hk3, hl3⟩
        · exact Or.inl hk3
        · exact Or.inr ⟨I7 k hk3, by rw [linksKeys_cons, hl3, Bool.true_or]⟩
      · exact Or.inr ⟨hk2, by rw [linksKeys_cons, hl, Bool.or_true]⟩
    · intro k hk
      rcases I9 k hk with hk2 | hk2
      · exact E9 k hk2
      · exact Or.inr (fun hk3 => hk2 (E6 k hk3))
    · omega
    · intro m hm
      rw [linksKeys_cons, Bool.or_eq_true] at hm
      rcases hm with hm | hm
      · exact I6 m (E11 m hm)
      · exact I11 m hm

/-- Any key linked to another through the joint list is an endpoint of a
listed joint, hence lies in the key universe. -/
lemma linksKeys_mem_universe (joints : List JointEntry) (s x y : ℕ)
    (h : linksKeys joints x y = true) : y ∈ keyUniverse joints s := by
  simp only [linksKeys, List.any_eq_true] at h
  obtain ⟨j, hj, hl⟩ := h
  rcases jointLinks_dest j x y hl with ⟨-, rfl⟩ | ⟨-, rfl⟩
  · unfold keyUniverse
    exact List.mem_cons_of_mem _ (List.mem_append_right _
      (List.mem_map_of_mem _ hj))
  · unfold keyUniverse
    exact List.mem_cons_of_mem _ (List.mem_append_left _
      (List.mem_map_of_mem _ hj))

/-- The key universe has one entry for the source plus two per joint. -/
lemma keyUniverse_length (joints : List JointEntry) (s : ℕ) :
    (keyUniverse joints s).length = 1 + 2 * joints.length := by
  unfold keyUniverse
  simp
  omega

/-- Main worklist lemma: with enough fuel (relative to the key universe,
the visited set and the stack), the traversal returns a superset of the
visited set that is sound for reachability and closed under the
valid-joint edge relation. -/
lemma dfsLoop_spec (joints : List JointEntry) (s : ℕ) :
    ∀ fuel : ℕ, ∀ stack visited : List ℕ,
    visited.Nodup → stack.Nodup → (∀ k ∈ stack, k ∈ visited) →
    (∀ k ∈ visited, k ∈ keyUniverse joints s) →
    (∀ k ∈ visited, Reach joints s k) →
    (∀ k ∈ visited, k ∉ stack → ∀ m, linksKeys joints k m = true → m ∈ visited) →
    stack.length + 2 * (keyUniverse joints s).length ≤ fuel + 2 * visited.length →
    (∀ k ∈ visited, k ∈ dfsLoop joints fuel stack visited) ∧
    (∀ k ∈ dfsLoop joints fuel stack visited, Reach joints s k) ∧
    (∀ k ∈ dfsLoop joints fuel stack visited, ∀ m,
      linksKeys joints k m = true → m ∈ dfsLoop joints fuel stack visited) := by
  intro fuel
  induction fuel with
  | zero =>
    intro stack visited hvn hsn hsub hU hR hcl hfuel
    have hvlen : visited.length ≤ (keyUniverse joints s).length :=
      (List.Nodup.subperm hvn hU).length_le
    have hstack : stack = [] := by
      cases stack with
      | nil => rfl
      | cons a tl =>
        exfalso
        simp only [List.length_cons] at hfuel
        omega
    subst hstack
    simp only [dfsLoop]
    exact ⟨fun k hk => hk, hR, fun k hk m hm => hcl k hk (by simp) m hm⟩
  | succ fuel ih =>
    intro stack visited hvn hsn hsub hU hR hcl hfuel
    cases stack with
    | nil =>
      simp only [dfsLoop]
      exact ⟨fun k hk => hk, hR, fun k hk m hm => hcl k hk (by simp) m hm⟩
    | cons cur rest =>
      have hcur : cur ∈ visited := hsub cur (by simp)
      have hrest_sub : ∀ k ∈ rest, k ∈ visited := fun k hk => hsub k (by simp [hk])
      have hrest_n : rest.Nodup := (List.nodup_cons.mp hsn).2
      have hcur_rest : cur ∉ rest := (List.nodup_cons.mp hsn).1
      obtain ⟨F1, F2, F3, F4, F5, F6, F7, F8, F9, F10, F11⟩ :=
        foldExpand_spec cur joints visited rest hvn hrest_n hrest_sub hcur hcur_rest
      have hred : dfsLoop joints (fuel + 1) (cur :: rest) visited =
          dfsLoop joints fuel (joints.foldl (expandJoint cur) (visited, rest)).2
            (joints.foldl (expandJoint cur) (visited, rest)).1 := rfl
      have hU2 : ∀ k ∈ (joints.foldl (expandJoint cur) (visited, rest)).1,
          k ∈ keyUniverse joints s := by
        intro k hk
        rcases F8 k hk with hk2 | ⟨-, hl⟩
        · exact hU k hk2
        · exact linksKeys_mem_universe joints s cur k hl
      have hR2 : ∀ k ∈ (joints.foldl (expandJoint cur) (visited, rest)).1,
          Reach joints s k := by
        intro k hk
        rcases F8 k hk with hk2 | ⟨-, hl⟩
        · exact hR k hk2
        · exact Reach.step (hR cur hcur) hl
      have hcl2 : ∀ k ∈ (joints.foldl (expandJoint cur) (visited, rest)).1,
          k ∉ (joints.foldl (expandJoint cur) (visited, rest)).2 →
          ∀ m, linksKeys joints k m = true →
          m ∈ (joints.foldl (expandJoint cur) (visited, rest)).1 := by
        intro k hk hks m hm
        rcases F8 k hk with hk2 | ⟨hk3, -⟩
        · by_cases hkc : k = cur
          · subst hkc
            exact F11 m hm
          · have hkrest : k ∉ rest := fun hk4 => hks (F7 k hk4)
            have hkstack : k ∉ cur :: rest := by
              intro hk4
              rcases List.mem_cons.mp hk4 with he | hk5
              · exact hkc he
              · exact hkrest hk5
            exact F6 m (hcl k hk2 hkstack m hm)
        · exact absurd hk3 hks
      have hvlen2 : visited.length ≤
          (joints.foldl (expandJoint cur) (visited, rest)).1.length :=
        (List.Nodup.subperm hvn F6).length_le
      have hfuel2 : (joints.foldl (expandJoint cur) (visited, rest)).2.length +
          2 * (keyUniverse joints s).length ≤
          fuel + 2 * (joints.foldl (expandJoint cur) (visited, rest)).1.length := by
        simp only [List.length_cons] at hfuel
        omega
      obtain ⟨I1, I2, I3⟩ := ih (joints.foldl (expandJoint cur) (visited, rest)).2
        (joints.foldl (expandJoint cur) (visited, rest)).1
        F1 F2 F3 hU2 hR2 hcl2 hfuel2
      rw [hred]
      exact ⟨fun k hk => I1 k (F6 k hk), I2, I3⟩

/-- The visited set computed by BodiesLinkedTo contains the source, only
reachable keys, and is closed under the valid-joint edges. -/
lemma reachedKeys_spec (joints : List JointEntry) (s : ℕ) :
    s ∈ reachedKeys joints s ∧
    (∀ k ∈ reachedKeys joints s, Reach joints s k) ∧
    (∀ k ∈ reachedKeys joints s, ∀ m, linksKeys joints k m = true →
      m ∈ reachedKeys joints s) := by
  have h := dfsLoop_spec joints s (dfsFuel joints) [s] [s]
    (by simp) (by simp) (by simp) (by simp [keyUniverse])
    (by intro k hk; simp at hk; subst hk; exact Reach.refl)
    (by intro k hk hks; simp at hk; subst hk; simp at hks)
    (by rw [keyUniverse_length]; unfold dfsFuel; simp; omega)
  exact ⟨h.1 s (by simp), h.2.1, h.2.2⟩

/-- Reachability in the joint graph is transitive. -/
lemma reach_trans (joints : List JointEntry) (a b c : ℕ)
    (h1 : Reach joints a b) (h2 : Reach joints b c) : Reach joints a c := by
  induction h2 with
  | refl => exact h1
  | step h2 hl ih => exact Reach.step ih hl

/-- The valid-joint edge relation is symmetric. -/
lemma linksKeys_symm (joints : List JointEntry) (x y : ℕ)
    (h : linksKeys joints x y = true) : linksKeys joints y x = true := by
  simp only [linksKeys, List.any_eq_true] at h ⊢
  obtain ⟨j, hj, hl⟩ := h
  refine ⟨j, hj, ?_⟩
  simp only [jointLinks, Bool.and_eq_true, Bool.or_eq_true] at hl ⊢
  tauto

/-- Reachability in the joint graph is symmetric, because every edge is. -/
lemma reach_symm (joints : List JointEntry) (s k : ℕ) (h : Reach joints s k) :
    Reach joints k s := by
  induction h with
  | refl => exact Reach.refl
  | step h1 hl ih =>
    exact reach_trans joints _ _ _
      (Reach.step Reach.refl (linksKeys_symm joints _ _ hl)) ih

/-- The visited set of the BodiesLinkedTo traversal is exactly the set of
keys reachable from the source through valid joints. -/
lemma reachedKeys_iff (joints : List JointEntry) (s k : ℕ) :
    k ∈ reachedKeys joints s ↔ Reach joints s k := by
  obtain ⟨h1, h2, h3⟩ := reachedKeys_spec joints s
  constructor
  · exact h2 k
  · intro h
    induction h with
    | refl => exact h1
    | step hr hl ih => exact h3 _ ih _ hl

/-- Membership in the BodiesLinkedTo result: index i is returned iff its
record is a valid body whose key is reachable from the source key. -/
lemma mem_bodiesLinkedTo (bodies : List BodyEntry) (joints : List JointEntry)
    (a i : ℕ) (src : BodyEntry) (hsrc : bodies.get? a = some src) :
    i ∈ BodiesLinkedTo bodies joints a ↔
      ∃ e : BodyEntry, bodies.get? i = some e ∧ e.valid = true ∧
        Reach joints src.key e.key := by
  unfold BodiesLinkedTo
  rw [hsrc]
  simp only [List.mem_filter, List.mem_range]
  constructor
  · rintro ⟨hlt, hp⟩
    cases hgi : bodies.get? i with
    | none =>
      rw [hgi] at hp
      simp at hp
    | some e =>
      rw [hgi] at hp
      simp only [Bool.and_eq_true] at hp
      refine ⟨e, rfl, hp.1, ?_⟩
      rw [← reachedKeys_iff]
      simpa using hp.2
  · rintro ⟨e, hgi, hval, hre⟩
    obtain ⟨hlt, -⟩ := List.get?_eq_some.mp hgi
    refine ⟨hlt, ?_⟩
    rw [hgi]
    simp only [Bool.and_eq_true]
    refine ⟨hval, ?_⟩
    rw [← reachedKeys_iff] at hre
    simpa using hre

/-- C4: the linked-group query is symmetric and closed over valid joints:
if body b is in the set BodiesLinkedTo returns for body a (with a a valid
body), then a is in the set returned for b; and every valid body m whose
key is joined by a valid joint to the key of a returned body b is itself
in the set returned for a (transitive closure under the joint graph). -/
theorem bodiesLinkedTo_symm_closed (bodies : List BodyEntry) (joints : List JointEntry)
    (a b m : ℕ) (ea eb em : BodyEntry)
    (hea : bodies.get? a = some ea) (hva : ea.valid = true)
    (heb : bodies.get? b = some eb)
    (hem : bodies.get? m = some em) (hvm : em.valid = true)
    (hb : b ∈ BodiesLinkedTo bodies joints a)
    (hlink : linksKeys joints eb.key em.key = true) :
    a ∈ BodiesLinkedTo bodies joints b ∧ m ∈ BodiesLinkedTo bodies joints a := by
  obtain ⟨e, hge, hve, hre⟩ := (mem_bodiesLinkedTo bodies joints a b ea hea).mp hb
  have heq : e = eb := by
    rw [hge] at heb
    exact Option.some.inj heb
  subst heq
  constructor
  · exact (mem_bodiesLinkedTo bodies joints b a e hge).mpr
      ⟨ea, hea, hva, reach_symm joints _ _ hre⟩
  · exact (mem_bodiesLinkedTo bodies joints a m ea hea).mpr
      ⟨em, hem, hvm, Reach.step hre hlink⟩

/-- Bodies of the C4 witness scene: three valid bodies with keys 10, 11,
12, chained by two valid joints 10-11 (weld) and 11-12 (wheel). -/
def demoLinkBodies : List BodyEntry := [⟨10, true⟩, ⟨11, true⟩, ⟨12, true⟩]

/-- Joints of the C4 witness scene. -/
def demoLinkJoints : List JointEntry := [⟨true, 10, 11, false⟩, ⟨true, 11, 12, true⟩]

/-- Witness for bodiesLinkedTo_symm_closed on the three-body chain: body 1
is linked to body 0, so 0 is linked to body 1, and body 2 (joined to body
1) is in the group of body 0. -/
theorem bodiesLinkedTo_symm_closed_witness :
    demoLinkBodies.get? 0 = some ⟨10, true⟩ ∧
    1 ∈ BodiesLinkedTo demoLinkBodies demoLinkJoints 0 ∧
    linksKeys demoLinkJoints 11 12 = true ∧
    (0 ∈ BodiesLinkedTo demoLinkBodies demoLinkJoints 1 ∧
      2 ∈ BodiesLinkedTo demoLinkBodies demoLinkJoints 0) :=
  ⟨by decide, by decide, by decide,
   bodiesLinkedTo_symm_closed demoLinkBodies demoLinkJoints 0 1 2
     ⟨10, true⟩ ⟨11, true⟩ ⟨12, true⟩ (by decide) (by decide) (by decide) (by decide)
     (by decide) (by decide) (by decide)⟩
